import Mathlib

/-!
Verification of the LaTeX-to-JSON parser of `latex2json.py` (tex2docx).

Shallow embedding: strings are `List Char`; every Python function used by the
claims is translated into an executable Lean function, with Python `re`
semantics (leftmost scan, ordered alternation, lazy `(.*?)` as
shortest-match-to-first-delimiter, greedy classes with backtracking) spelled
out as explicit scanning functions.  Recursions that are not structural in
Python are given a fuel argument that is always instantiated with
`length + 1`, which is sufficient because every recursive call consumes at
least one character per unit of fuel.
-/

namespace Tex2Docx

/-- Strings are modelled as lists of characters. -/
abbrev Str := List Char

/-- Helper to write character-list literals. -/
def lit (s : String) : Str := s.data

/-- The backslash character. -/
def bsl : Char := '\\'

/-- The opening brace character. -/
def obr : Char := '\x7b'

/-- The closing brace character. -/
def cbr : Char := '\x7d'

/-- The apostrophe character (written via its code point). -/
def apo : Char := Char.ofNat 39

/-- Python `\s` whitespace class (space, tab, newline, carriage return,
vertical tab, form feed). -/
def isPySpace (c : Char) : Bool :=
  c = ' ' || c = '\t' || c = '\n' || c = '\r' || c = '\x0b' || c = '\x0c'

/-- Python `str.strip()`: remove leading and trailing whitespace. -/
def pyStrip (s : Str) : Str :=
  ((s.dropWhile isPySpace).reverse.dropWhile isPySpace).reverse

/-- Boolean prefix test (same as `List.isPrefixOf`, kept local so that the
development controls its unfolding). -/
def pre : Str → Str → Bool
  | [], _ => true
  | _ :: _, [] => false
  | a :: as, b :: bs => a == b && pre as bs

/-- Boolean substring-occurrence test: `w` occurs somewhere in `s`. -/
def hasOcc (w : Str) : Str → Bool
  | [] => pre w []
  | c :: cs => pre w (c :: cs) || hasOcc w cs

/-- Number of positions of `s` at which `w` occurs (counting overlaps). -/
def countOcc (w : Str) : Str → Nat
  | [] => 0
  | c :: cs => (if pre w (c :: cs) then 1 else 0) + countOcc w cs

/-- Fuelled worker for `replaceAll`.  Python `str.replace` semantics: scan
left to right, replace non-overlapping occurrences, continue after each
replacement. -/
def replaceAllGo (t r : Str) : Nat → Str → Str
  | _, [] => []
  | 0, s => s
  | n + 1, c :: cs =>
    if pre t (c :: cs) && !t.isEmpty then
      r ++ replaceAllGo t r n (List.drop t.length (c :: cs))
    else
      c :: replaceAllGo t r n cs

/-- Python `s.replace(t, r)` (for nonempty `t`; the code never calls it with
an empty pattern). -/
def replaceAll (t r s : Str) : Str := replaceAllGo t r (s.length + 1) s

/-- Source: `latex2json.py`, `_clean_latex_text_segment` (lines 98-105).
Each `replaceAll` is one Python `str.replace` pass, in source order:
`~`→space, `\'e`→é, `\'a`→á, `\%`, `\&`, `\#`, `\$`, `\_`, `\{`, `\}`,
then `\\`→newline and `\newline`→newline. -/
def clean_latex_text_segment (s : Str) : Str :=
  let t1 := replaceAll (lit "~") (lit " ") s
  let t2 := replaceAll [bsl, apo, 'e'] (lit "é") t1
  let t3 := replaceAll [bsl, apo, 'a'] (lit "á") t2
  let t4 := replaceAll [bsl, '%'] (lit "%") t3
  let t5 := replaceAll [bsl, '&'] (lit "&") t4
  let t6 := replaceAll [bsl, '#'] (lit "#") t5
  let t7 := replaceAll [bsl, '$'] (lit "$") t6
  let t8 := replaceAll [bsl, '_'] (lit "_") t7
  let t9 := replaceAll [bsl, obr] [obr] t8
  let t10 := replaceAll [bsl, cbr] [cbr] t9
  let t11 := replaceAll [bsl, bsl] (lit "\n") t10
  replaceAll (bsl :: lit "newline") (lit "\n") t11

/-! ### Lemmas about `replaceAllGo` (used for claim C8) -/

theorem hasOcc_drop_false (w : Str) :
    ∀ (k : Nat) (s : Str), hasOcc w s = false → hasOcc w (List.drop k s) = false := by
  intro k s
  induction s generalizing k with
  | nil => intro h; simpa using h
  | cons c cs ih =>
    intro h
    cases k with
    | zero => simpa using h
    | succ j =>
      have h2 : hasOcc w cs = false := by
        have := h
        simp [hasOcc, Bool.or_eq_false_iff] at this
        exact this.2
      simpa [List.drop] using ih j h2

theorem pre_replace (t : Str) (r : Char) :
    ∀ (n : Nat) (w s : Str), r ∉ w → pre w s = false →
      pre w (replaceAllGo t [r] n s) = false := by
  intro n
  induction n with
  | zero =>
    intro w s _ h
    cases s with
    | nil => simpa [replaceAllGo] using h
    | cons c cs => simpa [replaceAllGo] using h
  | succ m ih =>
    intro w s hr h
    cases s with
    | nil => simpa [replaceAllGo] using h
    | cons c cs =>
      by_cases hm : (pre t (c :: cs) && !t.isEmpty) = true
      · rw [replaceAllGo, if_pos hm]
        cases w with
        | nil => simp [pre] at h
        | cons a as =>
          have har : a ≠ r := by
            intro hEq; exact hr (by simp [hEq])
          simp [pre, har]
      · rw [replaceAllGo, if_neg hm]
        cases w with
        | nil => simp [pre] at h
        | cons a as =>
          by_cases hac : a = c
          · subst hac
            have h2 : pre as cs = false := by
              simpa [pre] using h
            have hras : r ∉ as := fun hmem => hr (by simp [hmem])
            have := ih as cs hras h2
            simp [pre, this]
          · simp [pre, hac]

theorem hasOcc_replace (t : Str) (r : Char) (w : Str) (hr : r ∉ w) :
    ∀ (n : Nat) (s : Str), hasOcc w s = false →
      hasOcc w (replaceAllGo t [r] n s) = false := by
  intro n
  induction n with
  | zero =>
    intro s h
    cases s with
    | nil => simpa [replaceAllGo] using h
    | cons c cs => simpa [replaceAllGo] using h
  | succ m ih =>
    intro s h
    cases s with
    | nil => simpa [replaceAllGo] using h
    | cons c cs =>
      have hpre : pre w (c :: cs) = false := by
        have := h; simp [hasOcc, Bool.or_eq_false_iff] at this; exact this.1
      have hrest : hasOcc w cs = false := by
        have := h; simp [hasOcc, Bool.or_eq_false_iff] at this; exact this.2
      by_cases hm : (pre t (c :: cs) && !t.isEmpty) = true
      · rw [replaceAllGo, if_pos hm]
        have hdrop : hasOcc w (List.drop t.length (c :: cs)) = false :=
          hasOcc_drop_false w t.length (c :: cs) h
        have hY := ih (List.drop t.length (c :: cs)) hdrop
        cases w with
        | nil => simp [pre] at hpre
        | cons a as =>
          have har : a ≠ r := by
            intro hEq; exact hr (by simp [hEq])
          simp [hasOcc, pre, har, hY]
      · rw [replaceAllGo, if_neg hm]
        have hY := ih cs hrest
        cases w with
        | nil => simp [pre] at hpre
        | cons a as =>
          by_cases hac : a = c
          · subst hac
            have h2 : pre as cs = false := by simpa [pre] using hpre
            have hras : r ∉ as := fun hmem => hr (by simp [hmem])
            have hpY := pre_replace t r m as cs hras h2
            simp [hasOcc, pre, hpY, hY]
          · simp [hasOcc, pre, hac, hY]

theorem replace_id_of_no_occ (t r : Str) :
    ∀ (n : Nat) (s : Str), hasOcc t s = false → replaceAllGo t r n s = s := by
  intro n
  induction n with
  | zero =>
    intro s _
    cases s with
    | nil => simp [replaceAllGo]
    | cons c cs => simp [replaceAllGo]
  | succ m ih =>
    intro s h
    cases s with
    | nil => simp [replaceAllGo]
    | cons c cs =>
      have hpre : pre t (c :: cs) = false := by
        have := h; simp [hasOcc, Bool.or_eq_false_iff] at this; exact this.1
      have hrest : hasOcc t cs = false := by
        have := h; simp [hasOcc, Bool.or_eq_false_iff] at this; exact this.2
      have hm : (pre t (c :: cs) && !t.isEmpty) = false := by
        simp [hpre]
      rw [replaceAllGo, if_neg (by simp [hm])]
      rw [ih cs hrest]

theorem hasOcc_cons_false {w : Str} {c : Char} {cs : Str}
    (h : hasOcc w (c :: cs) = false) :
    pre w (c :: cs) = false ∧ hasOcc w cs = false := by
  simpa [hasOcc, Bool.or_eq_false_iff] using h

/-- Removal lemma for a two-character escape `\x` replaced by `x`: if the
input has no double backslash, the output has no occurrence of `\x`. -/
theorem hasOcc_replace_self2 (r : Char) (hrb : r ≠ bsl) :
    ∀ (n : Nat) (s : Str), s.length ≤ n → hasOcc [bsl, bsl] s = false →
      hasOcc [bsl, r] (replaceAllGo [bsl, r] [r] n s) = false := by
  have hbr : (bsl == r) = false := by
    simp [beq_iff_eq]
    exact fun h => hrb h.symm
  intro n
  induction n with
  | zero =>
    intro s hlen _
    cases s with
    | nil => simp [replaceAllGo, hasOcc, pre]
    | cons c cs => simp at hlen
  | succ m ih =>
    intro s hlen hntb
    cases s with
    | nil => simp [replaceAllGo, hasOcc, pre]
    | cons c cs =>
      by_cases hm : (pre [bsl, r] (c :: cs) && !([bsl, r] : Str).isEmpty) = true
      · have hpre : pre [bsl, r] (c :: cs) = true := by
          have := hm
          simp only [Bool.and_eq_true] at this
          exact this.1
        cases cs with
        | nil => simp [pre] at hpre
        | cons d ds =>
          rw [replaceAllGo, if_pos hm]
          have hlen2 : ds.length ≤ m := by simp at hlen; omega
          have hdropcs : hasOcc [bsl, bsl] ds = false :=
            (hasOcc_cons_false (hasOcc_cons_false hntb).2).2
          have hY := ih ds hlen2 hdropcs
          have hdropEq : List.drop (List.length ([bsl, r] : Str)) (c :: d :: ds) = ds := by
            simp
          rw [hdropEq]
          show hasOcc [bsl, r] (r :: replaceAllGo [bsl, r] [r] m ds) = false
          simp [hasOcc, pre, hbr, hY]
      · rw [replaceAllGo, if_neg hm]
        have hprefail : pre [bsl, r] (c :: cs) = false := by
          cases h2 : pre [bsl, r] (c :: cs) with
          | true => exact absurd (by simp [h2]) hm
          | false => rfl
        have hntbcs : hasOcc [bsl, bsl] cs = false := (hasOcc_cons_false hntb).2
        have hlencs : cs.length ≤ m := by simp at hlen; omega
        have hY := ih cs hlencs hntbcs
        by_cases hcb : c = bsl
        · subst hcb
          have hheadY : pre [r] (replaceAllGo [bsl, r] [r] m cs) = false := by
            cases cs with
            | nil => cases m <;> simp [replaceAllGo, pre]
            | cons d ds =>
              cases m with
              | zero => simp at hlencs
              | succ k =>
                by_cases hm2 : (pre [bsl, r] (d :: ds) && !([bsl, r] : Str).isEmpty) = true
                · exfalso
                  have hd : d = bsl := by
                    have := hm2
                    simp only [Bool.and_eq_true] at this
                    have := this.1
                    simp [pre, Bool.and_eq_true, beq_iff_eq] at this
                    exact this.1.symm
                  subst hd
                  simp [hasOcc, pre] at hntb
                · rw [replaceAllGo, if_neg hm2]
                  have hd : (r == d) = false := by
                    simpa [pre] using hprefail
                  simp [pre, hd]
          have hp : pre [bsl, r] (bsl :: replaceAllGo [bsl, r] [r] m cs) = false := by
            simpa [pre] using hheadY
          simp [hasOcc, hp, hY]
        · have hp : pre [bsl, r] (c :: replaceAllGo [bsl, r] [r] m cs) = false := by
            have : (bsl == c) = false := by
              simp [beq_iff_eq]
              exact fun h => hcb h.symm
            simp [pre, this]
          simp [hasOcc, hp, hY]

/-- Removal lemma for `\newline`-style escapes: `t = '\\' :: t0` with the
replacement character occurring neither in `t0` nor equal to a backslash. -/
theorem hasOcc_replace_self_long (t0 : Str) (r : Char)
    (hrb : r ≠ bsl) (hrt : r ∉ t0) :
    ∀ (n : Nat) (s : Str), s.length ≤ n →
      hasOcc (bsl :: t0) (replaceAllGo (bsl :: t0) [r] n s) = false := by
  have hbr : (bsl == r) = false := by
    simp [beq_iff_eq]
    exact fun h => hrb h.symm
  intro n
  induction n with
  | zero =>
    intro s hlen
    cases s with
    | nil => simp [replaceAllGo, hasOcc, pre]
    | cons c cs => simp at hlen
  | succ m ih =>
    intro s hlen
    cases s with
    | nil => simp [replaceAllGo, hasOcc, pre]
    | cons c cs =>
      by_cases hm : (pre (bsl :: t0) (c :: cs) && !(bsl :: t0 : Str).isEmpty) = true
      · rw [replaceAllGo, if_pos hm]
        have hlen2 : (List.drop t0.length cs).length ≤ m := by
          simp at hlen ⊢
          omega
        have hY := ih (List.drop t0.length cs) hlen2
        simp [hasOcc, pre, hbr, hY]
      · rw [replaceAllGo, if_neg hm]
        have hlencs : cs.length ≤ m := by simp at hlen; omega
        have hY := ih cs hlencs
        have hprefail : pre (bsl :: t0) (c :: cs) = false := by
          cases h2 : pre (bsl :: t0) (c :: cs) with
          | true => exact absurd (by simp [h2]) hm
          | false => rfl
        by_cases hcb : c = bsl
        · subst hcb
          have h2 : pre t0 cs = false := by
            simpa [pre] using hprefail
          have hpY := pre_replace (bsl :: t0) r m t0 cs hrt h2
          have hp : pre (bsl :: t0)
              (bsl :: replaceAllGo (bsl :: t0) [r] m cs) = false := by
            simp [pre, hpY]
          simp [hasOcc, hp, hY]
        · have hp : pre (bsl :: t0)
              (c :: replaceAllGo (bsl :: t0) [r] m cs) = false := by
            have : (bsl == c) = false := by
              simp [beq_iff_eq]
              exact fun h => hcb h.symm
            simp [pre, this]
          simp [hasOcc, hp, hY]

theorem hasOcc_replaceAll (t : Str) (r : Char) (w : Str) (hr : r ∉ w) (s : Str)
    (h : hasOcc w s = false) : hasOcc w (replaceAll t [r] s) = false :=
  hasOcc_replace t r w hr (s.length + 1) s h

theorem replaceAll_self2 (r : Char) (hrb : r ≠ bsl) (s : Str)
    (h : hasOcc [bsl, bsl] s = false) :
    hasOcc [bsl, r] (replaceAll [bsl, r] [r] s) = false :=
  hasOcc_replace_self2 r hrb (s.length + 1) s (Nat.le_succ _) h

theorem replaceAll_self_long (t0 : Str) (r : Char) (hrb : r ≠ bsl) (hrt : r ∉ t0)
    (s : Str) :
    hasOcc (bsl :: t0) (replaceAll (bsl :: t0) [r] s) = false :=
  hasOcc_replace_self_long t0 r hrb hrt (s.length + 1) s (Nat.le_succ _)

theorem replaceAll_id (t r s : Str) (h : hasOcc t s = false) :
    replaceAll t r s = s :=
  replace_id_of_no_occ t r (s.length + 1) s h

/-! ### Claim C8 -/

/-- C8 counterexample: cleaning the three-character input `\\%` yields the
literal escape `\%` — the `\%`-pass runs before the `\\`-pass and consumes
the second backslash, leaving a fresh `\%` that no later pass removes.  This
refutes the claim that no literal escape from the substitution table ever
survives cleaning. -/
theorem C8_counterexample :
    hasOcc [bsl, '%'] (clean_latex_text_segment [bsl, bsl, '%']) = true := by
  decide

/-- C8 (amended): for every input string containing no two consecutive
backslashes, the output of `_clean_latex_text_segment` contains no literal
`\%`, `\&`, `\#`, `\$`, `\_`, `\{`, `\}`, `\\` or `\newline`. -/
theorem C8_clean_no_escape_survives (s : Str)
    (h : hasOcc [bsl, bsl] s = false) :
    hasOcc [bsl, '%'] (clean_latex_text_segment s) = false ∧
      hasOcc [bsl, '&'] (clean_latex_text_segment s) = false ∧
      hasOcc [bsl, '#'] (clean_latex_text_segment s) = false ∧
      hasOcc [bsl, '$'] (clean_latex_text_segment s) = false ∧
      hasOcc [bsl, '_'] (clean_latex_text_segment s) = false ∧
      hasOcc [bsl, obr] (clean_latex_text_segment s) = false ∧
      hasOcc [bsl, cbr] (clean_latex_text_segment s) = false ∧
      hasOcc [bsl, bsl] (clean_latex_text_segment s) = false ∧
      hasOcc (bsl :: lit "newline") (clean_latex_text_segment s) = false := by
  simp only [clean_latex_text_segment]
  set t1 := replaceAll (lit "~") (lit " ") s with ht1
  set t2 := replaceAll [bsl, apo, 'e'] (lit "é") t1 with ht2
  set t3 := replaceAll [bsl, apo, 'a'] (lit "á") t2 with ht3
  set t4 := replaceAll [bsl, '%'] (lit "%") t3 with ht4
  set t5 := replaceAll [bsl, '&'] (lit "&") t4 with ht5
  set t6 := replaceAll [bsl, '#'] (lit "#") t5 with ht6
  set t7 := replaceAll [bsl, '$'] (lit "$") t6 with ht7
  set t8 := replaceAll [bsl, '_'] (lit "_") t7 with ht8
  set t9 := replaceAll [bsl, obr] [obr] t8 with ht9
  set t10 := replaceAll [bsl, cbr] [cbr] t9 with ht10
  set t11 := replaceAll [bsl, bsl] (lit "\n") t10 with ht11
  -- the double-backslash-freedom invariant is preserved through each pass
  have n1 : hasOcc [bsl, bsl] t1 = false := hasOcc_replaceAll _ ' ' _ (by decide) s h
  have n2 : hasOcc [bsl, bsl] t2 = false := hasOcc_replaceAll _ 'é' _ (by decide) t1 n1
  have n3 : hasOcc [bsl, bsl] t3 = false := hasOcc_replaceAll _ 'á' _ (by decide) t2 n2
  have n4 : hasOcc [bsl, bsl] t4 = false := hasOcc_replaceAll _ '%' _ (by decide) t3 n3
  have n5 : hasOcc [bsl, bsl] t5 = false := hasOcc_replaceAll _ '&' _ (by decide) t4 n4
  have n6 : hasOcc [bsl, bsl] t6 = false := hasOcc_replaceAll _ '#' _ (by decide) t5 n5
  have n7 : hasOcc [bsl, bsl] t7 = false := hasOcc_replaceAll _ '$' _ (by decide) t6 n6
  have n8 : hasOcc [bsl, bsl] t8 = false := hasOcc_replaceAll _ '_' _ (by decide) t7 n7
  have n9 : hasOcc [bsl, bsl] t9 = false := hasOcc_replaceAll _ obr _ (by decide) t8 n8
  have n10 : hasOcc [bsl, bsl] t10 = false := hasOcc_replaceAll _ cbr _ (by decide) t9 n9
  -- the `\\` pass is the identity on a double-backslash-free string
  have e11 : t11 = t10 := replaceAll_id _ _ t10 n10
  -- own-removal facts, then preservation through the later passes
  have o4 : hasOcc [bsl, '%'] t4 = false := replaceAll_self2 '%' (by decide) t3 n3
  have o5a : hasOcc [bsl, '%'] t5 = false := hasOcc_replaceAll _ '&' _ (by decide) t4 o4
  have o5 : hasOcc [bsl, '&'] t5 = false := replaceAll_self2 '&' (by decide) t4 n4
  have o6a : hasOcc [bsl, '%'] t6 = false := hasOcc_replaceAll _ '#' _ (by decide) t5 o5a
  have o6b : hasOcc [bsl, '&'] t6 = false := hasOcc_replaceAll _ '#' _ (by decide) t5 o5
  have o6 : hasOcc [bsl, '#'] t6 = false := replaceAll_self2 '#' (by decide) t5 n5
  have o7a : hasOcc [bsl, '%'] t7 = false := hasOcc_replaceAll _ '$' _ (by decide) t6 o6a
  have o7b : hasOcc [bsl, '&'] t7 = false := hasOcc_replaceAll _ '$' _ (by decide) t6 o6b
  have o7c : hasOcc [bsl, '#'] t7 = false := hasOcc_replaceAll _ '$' _ (by decide) t6 o6
  have o7 : hasOcc [bsl, '$'] t7 = false := replaceAll_self2 '$' (by decide) t6 n6
  have o8a : hasOcc [bsl, '%'] t8 = false := hasOcc_replaceAll _ '_' _ (by decide) t7 o7a
  have o8b : hasOcc [bsl, '&'] t8 = false := hasOcc_replaceAll _ '_' _ (by decide) t7 o7b
  have o8c : hasOcc [bsl, '#'] t8 = false := hasOcc_replaceAll _ '_' _ (by decide) t7 o7c
  have o8d : hasOcc [bsl, '$'] t8 = false := hasOcc_replaceAll _ '_' _ (by decide) t7 o7
  have o8 : hasOcc [bsl, '_'] t8 = false := replaceAll_self2 '_' (by decide) t7 n7
  have o9a : hasOcc [bsl, '%'] t9 = false := hasOcc_replaceAll _ obr _ (by decide) t8 o8a
  have o9b : hasOcc [bsl, '&'] t9 = false := hasOcc_replaceAll _ obr _ (by decide) t8 o8b
  have o9c : hasOcc [bsl, '#'] t9 = false := hasOcc_replaceAll _ obr _ (by decide) t8 o8c
  have o9d : hasOcc [bsl, '$'] t9 = false := hasOcc_replaceAll _ obr _ (by decide) t8 o8d
  have o9e : hasOcc [bsl, '_'] t9 = false := hasOcc_replaceAll _ obr _ (by decide) t8 o8
  have o9 : hasOcc [bsl, obr] t9 = false := replaceAll_self2 obr (by decide) t8 n8
  have o10a : hasOcc [bsl, '%'] t10 = false := hasOcc_replaceAll _ cbr _ (by decide) t9 o9a
  have o10b : hasOcc [bsl, '&'] t10 = false := hasOcc_replaceAll _ cbr _ (by decide) t9 o9b
  have o10c : hasOcc [bsl, '#'] t10 = false := hasOcc_replaceAll _ cbr _ (by decide) t9 o9c
  have o10d : hasOcc [bsl, '$'] t10 = false := hasOcc_replaceAll _ cbr _ (by decide) t9 o9d
  have o10e : hasOcc [bsl, '_'] t10 = false := hasOcc_replaceAll _ cbr _ (by decide) t9 o9e
  have o10f : hasOcc [bsl, obr] t10 = false := hasOcc_replaceAll _ cbr _ (by decide) t9 o9
  have o10 : hasOcc [bsl, cbr] t10 = false := replaceAll_self2 cbr (by decide) t9 n9
  -- final `\newline` pass: preserves all two-character facts, removes itself
  refine ⟨?_, ?_, ?_, ?_, ?_, ?_, ?_, ?_, ?_⟩
  · exact hasOcc_replaceAll _ '\n' _ (by decide) t11 (e11 ▸ o10a)
  · exact hasOcc_replaceAll _ '\n' _ (by decide) t11 (e11 ▸ o10b)
  · exact hasOcc_replaceAll _ '\n' _ (by decide) t11 (e11 ▸ o10c)
  · exact hasOcc_replaceAll _ '\n' _ (by decide) t11 (e11 ▸ o10d)
  · exact hasOcc_replaceAll _ '\n' _ (by decide) t11 (e11 ▸ o10e)
  · exact hasOcc_replaceAll _ '\n' _ (by decide) t11 (e11 ▸ o10f)
  · exact hasOcc_replaceAll _ '\n' _ (by decide) t11 (e11 ▸ o10)
  · exact hasOcc_replaceAll _ '\n' _ (by decide) t11 (e11 ▸ n10)
  · exact replaceAll_self_long (lit "newline") '\n' (by decide) (by decide) t11

/-- C8 witness: a concrete escape-bearing input with no double backslash;
the amended theorem applies and its hypothesis is discharged by `decide`. -/
theorem C8_clean_witness :
    hasOcc [bsl, bsl] [bsl, '%', ' ', bsl, '&'] = false ∧
      hasOcc [bsl, '%'] (clean_latex_text_segment [bsl, '%', ' ', bsl, '&']) = false :=
  ⟨by decide, (C8_clean_no_escape_survives [bsl, '%', ' ', bsl, '&'] (by decide)).1⟩

/-! ### Macro table and macro expansion -/

/-- Python `\w` (restricted to ASCII, which is all the repository uses). -/
def isWordChar (c : Char) : Bool :=
  ('a' ≤ c && c ≤ 'z') || ('A' ≤ c && c ≤ 'Z') || ('0' ≤ c && c ≤ '9') || c = '_'

def isWordOpt : Option Char → Bool
  | some c => isWordChar c
  | none => false

/-- The macro dictionary of the converter (`self.macros`): name → replacement,
in insertion order (Python dict semantics). -/
abbrev MacroTable := List (Str × Str)

/-- One `re.sub(r"\\" + re.escape(cmd) + r"(?!\w)", repl, text)` pass from
`_expand_macros` (line 130): replace every occurrence of `\cmd` that is not
immediately followed by a word character.  (The `except re.error` fallback of
lines 131-132 is unreachable for names captured by `\w+`.) -/
def applyMacroSub (name repl : Str) : Nat → Str → Str
  | _, [] => []
  | 0, s => s
  | n + 1, c :: cs =>
    if c = bsl && pre name cs && !isWordOpt (List.head? (List.drop name.length cs)) then
      repl ++ applyMacroSub name repl n (List.drop name.length cs)
    else
      c :: applyMacroSub name repl n cs

/-- One iteration of the `for cmd, replacement in self.macros.items()` loop of
`_expand_macros` (lines 125-132). -/
def expandOnce (macros : MacroTable) (text : Str) : Str :=
  macros.foldl (fun txt p => applyMacroSub p.1 p.2 (txt.length + 1) txt) text

/-- Source: `latex2json.py`, `_expand_macros` (lines 122-133).  The Python
function recurses with `depth + 1` while the text changes and stops when
`depth > 10`; the fuel argument here is `11 - depth`, so the top-level call
uses fuel 11. -/
def expandAux (macros : MacroTable) : Nat → Str → Str
  | 0, text => text
  | n + 1, text =>
    let t2 := expandOnce macros text
    if t2 = text then text else expandAux macros n t2

def expand_macros (macros : MacroTable) (text : Str) : Str :=
  expandAux macros 11 text

/-- Pure iteration of the substitution pass (for stating the C5 bound). -/
def iterExpand (macros : MacroTable) : Nat → Str → Str
  | 0, t => t
  | n + 1, t => iterExpand macros n (expandOnce macros t)

/-! ### Macro definition extraction (`_extract_definitions`, first loop) -/

/-- All ways to read `s` as `before ++ ch :: after`, in left-to-right order of
the occurrence of `ch` (used for lazy `(.*?)` followed by a literal, with
backtracking over later delimiters). -/
def charSplits (ch : Char) : Str → List (Str × Str)
  | [] => []
  | c :: cs =>
    (if c = ch then [([], cs)] else []) ++
      (charSplits ch cs).map (fun p => (c :: p.1, p.2))

/-- Does `s` start with optional whitespace followed by `ch` (Python
`\s*` + literal lookahead)? -/
def wsThen (ch : Char) (s : Str) : Bool :=
  List.head? (s.dropWhile isPySpace) = some ch

/-- The lazy template group of `\newcommand\{\s*\\(\w+)\s*\}\s*\{(.*?)\}(?!\s*\[)`:
take the first `}`-split whose remainder does not continue with `\s*[`
(the negative lookahead rejects candidates, so the lazy group backtracks past
them). -/
def newcommandTemplate (s : Str) : Option (Str × Str) :=
  (charSplits cbr s).find? (fun p => !wsThen '[' p.2)

/-- Try to match the `\newcommand` definition regex of `_extract_definitions`
(line 108) starting exactly at the head of `s`; on success return
`((name, template), rest-after-match)`. -/
def findNewcommandAt (s : Str) : Option ((Str × Str) × Str) :=
  if pre (lit "\\newcommand\x7b") s then
    let r1 := (List.drop 12 s).dropWhile isPySpace
    match r1 with
    | c :: r2 =>
      if c = bsl then
        let nm := r2.takeWhile isWordChar
        if nm.isEmpty then none
        else
          let r3 := (r2.drop nm.length).dropWhile isPySpace
          match r3 with
          | d :: r4 =>
            if d = cbr then
              let r5 := r4.dropWhile isPySpace
              match r5 with
              | e :: r6 =>
                if e = obr then
                  (newcommandTemplate r6).map (fun p => ((nm, p.1), p.2))
                else none
              | [] => none
            else none
          | [] => none
      else none
    | [] => none
  else none

/-- Python finditer scan for `\newcommand` definitions: collect matches left to
right, continuing after each match. -/
def extractGo : Nat → Str → List (Str × Str)
  | _, [] => []
  | 0, _ => []
  | n + 1, c :: cs =>
    match findNewcommandAt (c :: cs) with
    | some (def1, rest) => def1 :: extractGo n rest
    | none => extractGo n cs

/-- Python dict assignment `self.macros[name] = template`: last definition
wins, insertion position is kept. -/
def macroUpsert (tbl : MacroTable) (nm tp : Str) : MacroTable :=
  if tbl.any (fun p => p.1 == nm) then
    tbl.map (fun p => if p.1 == nm then (nm, tp) else p)
  else tbl ++ [(nm, tp)]

/-- Source: `latex2json.py`, `_extract_definitions` (lines 107-109), the
`\newcommand` loop.  (The `\definecolor` loop of lines 110-120 populates the
color table and is not needed by any claim.) -/
def extract_definitions_newcommands (preamble : Str) : MacroTable :=
  (extractGo (preamble.length + 1) preamble).foldl
    (fun tbl p => macroUpsert tbl p.1 p.2) []

/-! ### Claims C4, C5, C10 -/

/-- A `\newcommand` definition carrying an argument count, as in the claim. -/
def argMacroDef : Str := lit "\\newcommand\x7b\\foo\x7d[1]\x7bX#1\x7d"

/-- C4 counterexample: the definition `\newcommand{\foo}[1]{X#1}` is not
stored at all — the extraction regex requires `{` immediately (modulo
whitespace) after `{\name}`, so the `[1]` makes the match fail and the macro
table stays empty, refuting the claim that the macro is stored with its
declared argument count. -/
theorem C4_counterexample : extract_definitions_newcommands argMacroDef = [] := by
  decide

/-- C4 (amended): a `\newcommand{\name}[n]{...}` definition with `n > 0` is
not added to the macro table (the definition regex only matches the
zero-argument form), and consequently an invocation of `\name` is left
completely unexpanded: expansion under the resulting (empty) table is the
identity on every string. -/
theorem C4_arg_macros_not_stored :
    extract_definitions_newcommands argMacroDef = [] ∧
      ∀ s : Str, expand_macros (extract_definitions_newcommands argMacroDef) s = s := by
  refine ⟨by decide, ?_⟩
  intro s
  have he : extract_definitions_newcommands argMacroDef = [] := by decide
  rw [he]
  show expandAux [] 11 s = s
  simp [expandAux, expandOnce]

/-- The self-referential macro table `\newcommand{\self}{\self}`. -/
def selfMacroTable : MacroTable := [(lit "self", lit "\\self")]

theorem expandAux_spec (m : MacroTable) :
    ∀ (n : Nat) (t : Str),
      expandOnce m (expandAux m n t) = expandAux m n t ∨
        expandAux m n t = iterExpand m n t := by
  intro n
  induction n with
  | zero => intro t; exact Or.inr rfl
  | succ k ih =>
    intro t
    by_cases hfix : expandOnce m t = t
    · left
      simp [expandAux, hfix]
    · have hstep : expandAux m (k + 1) t = expandAux m k (expandOnce m t) := by
        simp [expandAux, hfix]
      rcases ih (expandOnce m t) with hl | hr
      · left; rw [hstep]; exact hl
      · right; rw [hstep, hr]; rfl

/-- C5: macro expansion always stops at a fixed point of the substitution
pass or after the fixed bound of 11 passes (depths 0..10), whichever comes
first; and for the self-referential macro `\newcommand{\self}{\self}`,
`expand("\self")` returns `\self` — a string with at most one unexpanded
`\self` — with the bound treated as normal termination, not an error. -/
theorem C5_expansion_bounded :
    (∀ (m : MacroTable) (t : Str),
        expandOnce m (expand_macros m t) = expand_macros m t ∨
          expand_macros m t = iterExpand m 11 t) ∧
      expand_macros selfMacroTable (lit "\\self") = lit "\\self" ∧
      countOcc (lit "\\self") (expand_macros selfMacroTable (lit "\\self")) ≤ 1 := by
  refine ⟨?_, by decide, by decide⟩
  intro m t
  exact expandAux_spec m 11 t

/-- Does `s` contain an occurrence of `\name` that the substitution pass
would rewrite, i.e. one not followed by a word character? -/
def hasExpandableOcc (name : Str) : Str → Bool
  | [] => false
  | c :: cs =>
    (c = bsl && pre name cs && !isWordOpt (List.head? (List.drop name.length cs))) ||
      hasExpandableOcc name cs

theorem applyMacroSub_id (name repl : Str) :
    ∀ (s : Str), hasExpandableOcc name s = false →
      ∀ (n : Nat), applyMacroSub name repl n s = s := by
  intro s
  induction s with
  | nil => intro _ n; cases n <;> simp [applyMacroSub]
  | cons c cs ih =>
    intro h n
    simp only [hasExpandableOcc, Bool.or_eq_false_iff] at h
    cases n with
    | zero => simp [applyMacroSub]
    | succ k =>
      rw [applyMacroSub, if_neg (by rw [h.1]; simp)]
      rw [ih h.2 k]

theorem expandOnce_id (macros : MacroTable) (s : Str)
    (h : ∀ p ∈ macros, hasExpandableOcc p.1 s = false) :
    expandOnce macros s = s := by
  induction macros with
  | nil => rfl
  | cons q qs ih =>
    show List.foldl _ (applyMacroSub q.1 q.2 (s.length + 1) s) qs = s
    rw [applyMacroSub_id q.1 q.2 s (h q (by simp)) (s.length + 1)]
    exact ih (fun p hp => h p (by simp [hp]))

/-- C10: macro expansion never rewrites an invocation whose name is
immediately followed by a word character: if every occurrence of `\name` in
the text (for every macro `name` in the table) is followed by a letter, digit
or underscore, the expansion leaves the whole text verbatim.  In particular a
macro named `doc` never rewrites the prefix of `\docname`. -/
theorem C10_word_boundary_guard (macros : MacroTable) (s : Str)
    (h : ∀ p ∈ macros, hasExpandableOcc p.1 s = false) :
    expand_macros macros s = s := by
  have h1 : expandOnce macros s = s := expandOnce_id macros s h
  show expandAux macros 11 s = s
  simp [expandAux, h1]

/-- C10 witness: with `\newcommand{\doc}{My Test Doc}` in the table, the text
`\docname` is left verbatim. -/
theorem C10_witness :
    expand_macros [(lit "doc", lit "My Test Doc")] (lit "\\docname") =
      lit "\\docname" :=
  C10_word_boundary_guard [(lit "doc", lit "My Test Doc")] (lit "\\docname")
    (by decide)

/-! ### Formatting and content runs -/

/-- A run-formatting dictionary.  The source only ever stores `bold = True`,
`italic = True`, `underline = True`, `font_name = "Courier New"` and
`color = "#RRGGBB"`, so presence of a key is modelled by `true`/`some` and
Python dict equality coincides with structure equality (an empty dict, which
the post-processing deletes, corresponds to `fmtNone`). -/
structure Fmt where
  bold : Bool
  italic : Bool
  underline : Bool
  font_name : Option Str
  color : Option Str
deriving DecidableEq

def fmtNone : Fmt := ⟨false, false, false, none, none⟩

/-- A content item produced by the converter: a text run (`type: text`), a
citation run (`type: citation`, with `display_text` and
`field_data = {key, latex_command}`), or an image run (`type: image`). -/
inductive Run where
  | text (txt : Str) (formatting : Fmt)
  | citation (display_text : Str) (key : Str) (latex_command : Str)
  | image (path : Str)
deriving DecidableEq

/-- Builtin color palette `LATEX_COLOR_TO_HEX` (lines 15-28). -/
def LATEX_COLOR_TO_HEX : List (Str × Str) :=
  [(lit "black", lit "#000000"), (lit "white", lit "#FFFFFF"),
   (lit "red", lit "#FF0000"), (lit "green", lit "#00FF00"),
   (lit "blue", lit "#0000FF"), (lit "cyan", lit "#00FFFF"),
   (lit "magenta", lit "#FF00FF"), (lit "yellow", lit "#FFFF00"),
   (lit "gray", lit "#808080"), (lit "AliceBlue", lit "#F0F8FF"),
   (lit "AntiqueWhite", lit "#FAEBD7"), (lit "Aqua", lit "#00FFFF"),
   (lit "Aquamarine", lit "#7FFFD4"), (lit "Azure", lit "#F0FFFF"),
   (lit "Beige", lit "#F5F5DC"), (lit "Bisque", lit "#FFE4C4"),
   (lit "BlanchedAlmond", lit "#FFEBCD"), (lit "BlueViolet", lit "#8A2BE2"),
   (lit "Brown", lit "#A52A2A"), (lit "BurlyWood", lit "#DEB887"),
   (lit "CadetBlue", lit "#5F9EA0"), (lit "Chartreuse", lit "#7FFF00"),
   (lit "Chocolate", lit "#D2691E"), (lit "Coral", lit "#FF7F50"),
   (lit "CornflowerBlue", lit "#6495ED"), (lit "Cornsilk", lit "#FFF8DC"),
   (lit "Crimson", lit "#DC143C"), (lit "DarkBlue", lit "#00008B"),
   (lit "DarkCyan", lit "#008B8B"), (lit "DarkGoldenRod", lit "#B8860B"),
   (lit "DarkGray", lit "#A9A9A9"), (lit "DarkGrey", lit "#A9A9A9"),
   (lit "DarkGreen", lit "#006400"), (lit "Green", lit "#008000"),
   (lit "Blue", lit "#0000FF")]

/-- Python `dict.get` on a name→hex table (keys are unique). -/
def lookupColor (colors : List (Str × Str)) (nm : Str) : Option Str :=
  (colors.find? (fun p => p.1 == nm)).map (fun p => p.2)

/-! ### The inline pattern `COMPILED_INLINE_PATTERN` (lines 31-45)

Each alternative of the alternation is translated to one matcher.  Python
`re` tries alternatives left to right at each scan position; a lazy `(.*?)`
followed by a literal delimiter matches up to the first occurrence of the
delimiter; a greedy class followed by a literal backtracks to the maximal
run that still lets the literal match. -/

/-- Split at the first occurrence of `ch`: `(before, after)` with the
occurrence removed. -/
def splitAtFirst (ch : Char) : Str → Option (Str × Str)
  | [] => none
  | c :: cs =>
    if c = ch then some ([], cs)
    else (splitAtFirst ch cs).map (fun p => (c :: p.1, p.2))

/-- Here `cmd` is a literal including the opening brace, e.g. `\textbf{`; the
content is the lazy group up to the first closing brace. -/
def matchBraceCmd (cmd : Str) (s : Str) : Option (Str × Str) :=
  if pre cmd s then splitAtFirst cbr (List.drop cmd.length s) else none

/-- Alternative `\textcolor\{([a-zA-Z0-9_]+)\}\{(.*?)\}` (G11-G13). -/
def matchTextcolor (s : Str) : Option (Str × Str × Str) :=
  if pre (lit "\\textcolor\x7b") s then
    let r1 := List.drop 11 s
    let nm := r1.takeWhile isWordChar
    if nm.isEmpty then none
    else
      let r2 := List.drop nm.length r1
      if pre [cbr, obr] r2 then
        (splitAtFirst cbr (List.drop 2 r2)).map (fun p => (nm, p.1, p.2))
      else none
  else none

/-- Alternative `\{\s*\\color\{([a-zA-Z0-9_]+)\}(.*?)\}` (G14-G16). -/
def matchColorGroup (s : Str) : Option (Str × Str × Str) :=
  match s with
  | [] => none
  | c :: cs =>
    if c = obr then
      let r1 := cs.dropWhile isPySpace
      if pre (lit "\\color\x7b") r1 then
        let r2 := List.drop 7 r1
        let nm := r2.takeWhile isWordChar
        if nm.isEmpty then none
        else
          match List.drop nm.length r2 with
          | [] => none
          | d :: r4 =>
            if d = cbr then
              (splitAtFirst cbr r4).map (fun p => (nm, p.1, p.2))
            else none
      else none
    else none

/-- Alternative `\href\{[^}]*\}\{(.*?)\}` (G19-G20, the display text is captured). -/
def matchHref (s : Str) : Option (Str × Str) :=
  if pre (lit "\\href\x7b") s then
    let r1 := List.drop 6 s
    let u := r1.takeWhile (fun c => c ≠ cbr)
    match List.drop u.length r1 with
    | [] => none
    | d :: r3 =>
      if d = cbr then
        match r3 with
        | [] => none
        | e :: r4 => if e = obr then splitAtFirst cbr r4 else none
      else none
  else none

/-- Lazy brace group `\{(.*?)\}`. -/
def braceLazy (s : Str) : Option (Str × Str) :=
  match s with
  | [] => none
  | c :: cs => if c = obr then splitAtFirst cbr cs else none

/-- Backtracking for `(?:\[(.*?)\])?\{(.*?)\}` when the text starts with `[`:
the lazy group is extended over successive `]` candidates until the brace
group after it matches. -/
def firstBraceAfter : List (Str × Str) → Option (Option Str × Str × Str)
  | [] => none
  | (b, a) :: rest =>
    match braceLazy a with
    | some p => some (some b, p.1, p.2)
    | none => firstBraceAfter rest

/-- Pattern `(?:\[(.*?)\])?\{(.*?)\}`: optional bracketed argument then brace group;
returns `(optional-arg, brace-content, rest)`. -/
def bracketThenBrace (s : Str) : Option (Option Str × Str × Str) :=
  match s with
  | [] => none
  | c :: cs =>
    if c = '[' then firstBraceAfter (charSplits ']' cs)
    else (braceLazy s).map (fun p => (none, p.1, p.2))

/-- The citation command names, in the alternation order of the pattern
(`cite|citep|citet|citeauthor`); Python tries them left to right and
backtracks to the next name when the tail fails. -/
def citeNameList : List Str :=
  [lit "cite", lit "citep", lit "citet", lit "citeauthor"]

/-- Try the citation names in order against `s` (the text after the leading
backslash); returns `(whole-match, optional-prenote, key, rest)`. -/
def matchCiteName : List Str → Str → Option (Str × Option Str × Str × Str)
  | [], _ => none
  | nm :: rest, s =>
    if pre nm s then
      match bracketThenBrace (List.drop nm.length s) with
      | some (opt, key, r) =>
        let whole := bsl :: (nm ++
          (match opt with
           | some o => '[' :: (o ++ (']' :: (obr :: (key ++ [cbr]))))
           | none => obr :: (key ++ [cbr])))
        some (whole, opt, key, r)
      | none => matchCiteName rest s
    else matchCiteName rest s

/-- Alternative `\(?:cite|citep|citet|citeauthor)(?:\[(.*?)\])?\{(.*?)\}` (G21-G23). -/
def matchCite (s : Str) : Option (Str × Option Str × Str × Str) :=
  match s with
  | [] => none
  | c :: cs => if c = bsl then matchCiteName citeNameList cs else none

/-- The class `[a-zA-Z@]` of the generic-command alternative. -/
def isGenCmdChar (c : Char) : Bool :=
  ('a' ≤ c && c ≤ 'z') || ('A' ≤ c && c ≤ 'Z') || c = '@'

/-- Alternative `\\[a-zA-Z@]+(?!\s*\{)` (G24): the greedy name backtracks by exactly one
character when the full run is followed by `\s*{` (any shorter prefix ends at
a letter, which satisfies the negative lookahead). -/
def matchGeneric (s : Str) : Option (Str × Str) :=
  match s with
  | [] => none
  | c :: cs =>
    if c = bsl then
      let full := cs.takeWhile isGenCmdChar
      if full.isEmpty then none
      else
        let rest := List.drop full.length cs
        if !wsThen obr rest then some (full, rest)
        else if 2 ≤ full.length then
          some (full.take (full.length - 1), full.drop (full.length - 1) ++ rest)
        else none
    else none

/-- The alternative of the inline pattern that matched, with its captured
groups. -/
inductive IM where
  | boldI (content : Str)
  | italicI (content : Str)
  | emphI (content : Str)
  | underlineI (content : Str)
  | teletype (content : Str)
  | textcolorI (color : Str) (content : Str)
  | colorGroupI (color : Str) (content : Str)
  | urlI (content : Str)
  | hrefI (display : Str)
  | citeI (whole : Str) (opt : Option Str) (key : Str)
  | genericCmd (name : Str)

/-- Try the alternatives of `COMPILED_INLINE_PATTERN` in pattern order at the
current position. -/
def matchAt (s : Str) : Option (IM × Str) :=
  ((matchBraceCmd (lit "\\textbf\x7b") s).map (fun p => (IM.boldI p.1, p.2))) <|>
  ((matchBraceCmd (lit "\\textit\x7b") s).map (fun p => (IM.italicI p.1, p.2))) <|>
  ((matchBraceCmd (lit "\\emph\x7b") s).map (fun p => (IM.emphI p.1, p.2))) <|>
  ((matchBraceCmd (lit "\\underline\x7b") s).map (fun p => (IM.underlineI p.1, p.2))) <|>
  ((matchBraceCmd (lit "\\texttt\x7b") s).map (fun p => (IM.teletype p.1, p.2))) <|>
  ((matchTextcolor s).map (fun p => (IM.textcolorI p.1 p.2.1, p.2.2))) <|>
  ((matchColorGroup s).map (fun p => (IM.colorGroupI p.1 p.2.1, p.2.2))) <|>
  ((matchBraceCmd (lit "\\url\x7b") s).map (fun p => (IM.urlI p.1, p.2))) <|>
  ((matchHref s).map (fun p => (IM.hrefI p.1, p.2))) <|>
  ((matchCite s).map (fun p => (IM.citeI p.1 p.2.1 p.2.2.1, p.2.2.2))) <|>
  ((matchGeneric s).map (fun p => (IM.genericCmd p.1, p.2)))

/-- Python finditer: the earliest position with a match wins; returns the text
before the match, the match, and the text after it. -/
def findMatch : Str → Option (Str × IM × Str)
  | [] => none
  | c :: cs =>
    match matchAt (c :: cs) with
    | some (m, r) => some ([], m, r)
    | none => (findMatch cs).map (fun t => (c :: t.1, t.2.1, t.2.2))

/-- Source: `latex2json.py`, `generate_runs` (lines 171-280), the inner
recursive worker of `_parse_inline_text_to_content_items`.  Notes kept from
the source: the debug `print` calls have no semantic effect; the `else`
branch of line 265 (`[Unhandled Regex M.]`) is unreachable because every
alternative that matches sets its outer group; the group-24 branch
(lines 253-264) computes an unused brace-scan index and emits nothing.
The fuel argument strictly dominates the length of the segment, which
shrinks at every recursive call. -/
def generate_runs (colors : List (Str × Str)) : Nat → Fmt → Str → List Run
  | 0, _, _ => []
  | n + 1, fmt, s =>
    match findMatch s with
    | none =>
      let p := clean_latex_text_segment s
      if p.isEmpty then [] else [Run.text p fmt]
    | some (before, m, rest) =>
      (let p := clean_latex_text_segment before
       if p.isEmpty then [] else [Run.text p fmt]) ++
      (match m with
       | IM.boldI c =>
         let c2 := pyStrip c
         if c2.isEmpty then [] else
           generate_runs colors n { fmt with bold := true } c2
       | IM.italicI c =>
         let c2 := pyStrip c
         if c2.isEmpty then [] else
           generate_runs colors n { fmt with italic := true } c2
       | IM.emphI c =>
         let c2 := pyStrip c
         if c2.isEmpty then [] else
           generate_runs colors n { fmt with italic := true } c2
       | IM.underlineI c =>
         let c2 := pyStrip c
         if c2.isEmpty then [] else
           generate_runs colors n { fmt with underline := true } c2
       | IM.teletype c =>
         let c2 := pyStrip c
         if c2.isEmpty then [] else
           generate_runs colors n { fmt with font_name := some (lit "Courier New") } c2
       | IM.textcolorI nm c =>
         let f2 := match lookupColor colors nm with
           | some hex => { fmt with color := some hex }
           | none => fmt
         let c2 := pyStrip c
         if c2.isEmpty then [] else generate_runs colors n f2 c2
       | IM.colorGroupI nm c =>
         let f2 := match lookupColor colors nm with
           | some hex => { fmt with color := some hex }
           | none => fmt
         let c2 := pyStrip c
         if c2.isEmpty then [] else generate_runs colors n f2 c2
       | IM.urlI c => [Run.text (clean_latex_text_segment (pyStrip c)) fmt]
       | IM.hrefI d => [Run.text (clean_latex_text_segment (pyStrip d)) fmt]
       | IM.citeI whole _ key =>
         [Run.citation ('[' :: (key ++ [']'])) key whole]
       | IM.genericCmd _ => []) ++
      generate_runs colors n fmt rest

/-! ### Post-processing (merge and filter, lines 282-293) -/

def isTextRun : Run → Bool
  | Run.text _ _ => true
  | _ => false

def txtOf : Run → Str
  | Run.text t _ => t
  | _ => []

def fmtOf : Run → Fmt
  | Run.text _ f => f
  | _ => fmtNone

/-- The keep condition `item.get("text","").strip() or item["type"] != "text"`
of lines 291 and 293: a text run is kept iff its stripped text is nonempty;
every non-text run is kept (its `get("text","")` is empty but its type
differs from `text`). -/
def keepRun : Run → Bool
  | Run.text t _ => !(pyStrip t).isEmpty
  | _ => true

/-- One iteration of the merge loop (lines 285-292), with the accumulator
kept in reverse so that `merged_items[-1]` is the head.  The first condition
is `merged_items[-1]["type"] == "text" and item["type"] == "text" and
merged_items[-1].get("formatting") == item.get("formatting")` (deleting an
empty formatting dict and comparing with `.get` is the same as comparing
`Fmt` values, since only `fmtNone` is ever deleted). -/
def ppStep (acc : List Run) (item : Run) : List Run :=
  match acc with
  | prev :: rest =>
    if isTextRun prev ∧ isTextRun item ∧ fmtOf prev = fmtOf item then
      Run.text (txtOf prev ++ txtOf item) (fmtOf prev) :: rest
    else if keepRun item then item :: prev :: rest else prev :: rest
  | [] => if keepRun item then [item] else []

/-- Merge pass followed by the final filter (line 293). -/
def postProcess (raw : List Run) : List Run :=
  ((raw.foldl ppStep []).reverse).filter keepRun

/-- Source: `_parse_inline_text_to_content_items` (lines 167-293): expand
macros, generate raw runs under empty base formatting, then merge and
filter. -/
def parse_inline_text_to_content_items (macros : MacroTable)
    (colors : List (Str × Str)) (s : Str) : List Run :=
  let s2 := expand_macros macros s
  postProcess (generate_runs colors (s2.length + 1) fmtNone s2)

/-! ### Claims C1 and C9 -/

/-- Two runs that the merge loop would merge: both text, equal formatting. -/
def mergeablePair (a b : Run) : Prop :=
  isTextRun a = true ∧ isTextRun b = true ∧ fmtOf a = fmtOf b

theorem pyStrip_eq_nil_iff (s : Str) :
    pyStrip s = [] ↔ ∀ c ∈ s, isPySpace c = true := by
  unfold pyStrip
  rw [List.reverse_eq_nil_iff, List.dropWhile_eq_nil_iff]
  constructor
  · intro h c hc
    by_cases hcd : c ∈ List.dropWhile isPySpace s
    · exact h c (List.mem_reverse.mpr hcd)
    · have hsplit : s.takeWhile isPySpace ++ s.dropWhile isPySpace = s :=
        List.takeWhile_append_dropWhile isPySpace s
      have hc2 : c ∈ s.takeWhile isPySpace ++ s.dropWhile isPySpace := by
        rw [hsplit]; exact hc
      rcases List.mem_append.mp hc2 with h1 | h2
      · exact List.mem_takeWhile_imp h1
      · exact absurd h2 hcd
  · intro h c hc
    have hc2 : c ∈ List.dropWhile isPySpace s := List.mem_reverse.mp hc
    have hsplit : s.takeWhile isPySpace ++ s.dropWhile isPySpace = s :=
      List.takeWhile_append_dropWhile isPySpace s
    have : c ∈ s := by
      rw [← hsplit]; exact List.mem_append.mpr (Or.inr hc2)
    exact h c this

theorem pyStrip_append_keep (t1 t2 : Str) (h : (pyStrip t1).isEmpty = false) :
    (pyStrip (t1 ++ t2)).isEmpty = false := by
  cases hs : pyStrip (t1 ++ t2) with
  | cons _ _ => simp
  | nil =>
    exfalso
    have hall := (pyStrip_eq_nil_iff (t1 ++ t2)).mp hs
    have h1 : pyStrip t1 = [] :=
      (pyStrip_eq_nil_iff t1).mpr (fun c hc => hall c (List.mem_append.mpr (Or.inl hc)))
    rw [h1] at h
    simp at h

/-- Invariant maintained by the merge loop over the (reversed) accumulator. -/
def accGood (acc : List Run) : Prop :=
  List.Chain' (fun a b => ¬ mergeablePair a b) acc ∧ ∀ x ∈ acc, keepRun x = true

theorem ppStep_good (acc : List Run) (item : Run) (h : accGood acc) :
    accGood (ppStep acc item) := by
  obtain ⟨hc, hk⟩ := h
  cases acc with
  | nil =>
    show accGood (if keepRun item then [item] else [])
    by_cases hkeep : keepRun item = true
    · rw [if_pos hkeep]
      exact ⟨List.chain'_singleton _, by intro x hx; simp at hx; rw [hx]; exact hkeep⟩
    · rw [if_neg hkeep]
      exact ⟨List.chain'_nil, by intro x hx; simp at hx⟩
  | cons prev rest =>
    show accGood
      (if isTextRun prev ∧ isTextRun item ∧ fmtOf prev = fmtOf item then
        Run.text (txtOf prev ++ txtOf item) (fmtOf prev) :: rest
      else if keepRun item then item :: prev :: rest else prev :: rest)
    by_cases hm : isTextRun prev = true ∧ isTextRun item = true ∧ fmtOf prev = fmtOf item
    · rw [if_pos hm]
      obtain ⟨hpt, _, _⟩ := hm
      cases prev with
      | citation d k c => simp [isTextRun] at hpt
      | image p => simp [isTextRun] at hpt
      | text t f =>
        constructor
        · cases rest with
          | nil => exact List.chain'_singleton _
          | cons b rb =>
            have hrel : ¬ mergeablePair (Run.text t f) b := (List.chain'_cons.mp hc).1
            refine List.chain'_cons.mpr ⟨?_, (List.chain'_cons.mp hc).2⟩
            intro hmp
            exact hrel ⟨by simp [isTextRun], hmp.2.1, by
              have := hmp.2.2
              simpa [fmtOf] using this⟩
        · intro x hx
          rcases List.mem_cons.mp hx with hx1 | hx2
          · rw [hx1]
            have hkp : keepRun (Run.text t f) = true := hk _ (List.mem_cons_self _ _)
            have hne : (pyStrip t).isEmpty = false := by
              simpa [keepRun] using hkp
            have := pyStrip_append_keep t (txtOf item) hne
            simpa [keepRun, fmtOf, txtOf] using this
          · exact hk x (List.mem_cons_of_mem _ hx2)
    · rw [if_neg hm]
      by_cases hkeep : keepRun item = true
      · rw [if_pos hkeep]
        constructor
        · refine List.chain'_cons.mpr ⟨?_, hc⟩
          intro hmp
          exact hm ⟨hmp.2.1, hmp.1, hmp.2.2.symm⟩
        · intro x hx
          rcases List.mem_cons.mp hx with hx1 | hx2
          · rw [hx1]; exact hkeep
          · exact hk x hx2
      · rw [if_neg hkeep]
        exact ⟨hc, hk⟩

theorem postProcess_good (raw : List Run) :
    List.Chain' (fun a b => ¬ mergeablePair a b) (postProcess raw) ∧
      ∀ x ∈ postProcess raw, keepRun x = true := by
  have main : ∀ (acc : List Run), accGood acc → accGood (raw.foldl ppStep acc) := by
    induction raw with
    | nil => intro acc h; exact h
    | cons i is ih => intro acc h; exact ih _ (ppStep_good acc i h)
  obtain ⟨hc, hk⟩ := main [] ⟨List.chain'_nil, by intro x hx; simp at hx⟩
  have hkrev : ∀ x ∈ (raw.foldl ppStep []).reverse, keepRun x = true := by
    intro x hx
    exact hk x (List.mem_reverse.mp hx)
  have hfilter : ((raw.foldl ppStep []).reverse).filter keepRun =
      (raw.foldl ppStep []).reverse :=
    List.filter_eq_self.mpr hkrev
  have hcrev : List.Chain' (fun a b => ¬ mergeablePair a b)
      ((raw.foldl ppStep []).reverse) := by
    rw [List.chain'_reverse]
    exact hc.imp (fun a b hab hba => hab ⟨hba.2.1, hba.1, hba.2.2.symm⟩)
  constructor
  · show List.Chain' _ (((raw.foldl ppStep []).reverse).filter keepRun)
    rw [hfilter]; exact hcrev
  · intro x hx
    have : x ∈ (raw.foldl ppStep []).reverse := by
      rw [postProcess, hfilter] at hx
      exact hx
    exact hkrev x this

/-- C1: for every input string (every macro table and color table), the run
sequence returned by the Inline Markup Parser contains no two consecutive
runs that are both Text runs with identical Formatting — every maximal group
of adjacent Formatting-equal Text runs has been merged before the list is
returned. -/
theorem C1_adjacent_text_runs_merged (macros : MacroTable)
    (colors : List (Str × Str)) (s : Str) :
    List.Chain' (fun a b => ¬ mergeablePair a b)
      (parse_inline_text_to_content_items macros colors s) :=
  (postProcess_good _).1

/-- C9: every Text run returned by `_parse_inline_text_to_content_items` has
a text value with at least one non-whitespace character (its Python-stripped
text is nonempty): blank runs are merged away or dropped by the final
filter. -/
theorem C9_no_blank_text_runs (macros : MacroTable) (colors : List (Str × Str))
    (s : Str) (t : Str) (f : Fmt)
    (h : Run.text t f ∈ parse_inline_text_to_content_items macros colors s) :
    pyStrip t ≠ [] := by
  have hkeep := (postProcess_good
    (generate_runs colors ((expand_macros macros s).length + 1) fmtNone
      (expand_macros macros s))).2 _ h
  intro hnil
  rw [keepRun, hnil] at hkeep
  simp at hkeep

/-- C9 witness: the single run parsed from `hi` has non-blank text. -/
theorem C9_witness : pyStrip (lit "hi") ≠ [] :=
  C9_no_blank_text_runs [] LATEX_COLOR_TO_HEX (lit "hi") (lit "hi") fmtNone
    (by decide)

/-! ### Claims C3 and C6 -/

def fmtBold : Fmt := ⟨true, false, false, none, none⟩

def fmtBoldItalic : Fmt := ⟨true, true, false, none, none⟩

/-- The input of claim C3. -/
def c3Input : Str := lit "\\textbf\x7bbold \\textit\x7bboth\x7d\x7d"

/-- C3 counterexample: the claimed output — two Text runs `bold ` ({bold})
and `both` ({bold, italic}) — is not what the parser returns.  The lazy
`(.*?)` of the `\textbf` alternative stops at the first `}` (the one closing
`\textit`), so the nested command is mis-parsed. -/
theorem C3_counterexample :
    parse_inline_text_to_content_items [] LATEX_COLOR_TO_HEX c3Input ≠
      [Run.text (lit "bold ") fmtBold, Run.text (lit "both") fmtBoldItalic] := by
  decide

/-- C3 (amended): on `\textbf{bold \textit{both}}` the parser returns two
Text runs `bold t{both` with {bold} and `}` with empty formatting: the
non-greedy regex closes `\textbf` at the first `}`, the generic-command
alternative then swallows `\texti` (the longest command-name prefix not
followed by `{`), and the leftover brace characters leak into the text. -/
theorem C3_nested_misparse :
    parse_inline_text_to_content_items [] LATEX_COLOR_TO_HEX c3Input =
      [Run.text (lit "bold t\x7bboth") fmtBold, Run.text [cbr] fmtNone] := by
  decide

/-- The single citation run of a one-run list, projected to its
`latex_command` field (the only command/style-identifying datum the code
stores). -/
def styleTagOf : List Run → Option Str
  | [Run.citation _ _ cmd] => some cmd
  | _ => none

/-- The input of claim C6. -/
def c6Input : Str := lit "\\citep\x7ba,b\x7d"

/-- C6 counterexample: the run returned for `\citep{a,b}` does not carry a
bare style tag `citep` — the only command-identifying field stores the whole
command text, and no comma-split key list exists anywhere in the run. -/
theorem C6_counterexample :
    styleTagOf (parse_inline_text_to_content_items [] LATEX_COLOR_TO_HEX c6Input) ≠
      some (lit "citep") := by
  decide

/-- C6 (amended): `parse_inline("\citep{a,b}")` returns exactly one Citation
run, with display text `[a,b]`, `field_data.key` holding the raw unsplit
string `a,b`, and `field_data.latex_command` holding the full matched command
`\citep{a,b}`; the argument is not recursively parsed, no comma-splitting is
performed, and no separate style tag or prenote field is stored. -/
theorem C6_citation_run :
    parse_inline_text_to_content_items [] LATEX_COLOR_TO_HEX c6Input =
      [Run.citation (lit "[a,b]") (lit "a,b") (lit "\\citep\x7ba,b\x7d")] := by
  decide

/-! ### Block parser (`_parse_body`, lines 359-549)

File-system access (`_find_image_path`) is an external collaborator and is
modelled by a `resolve` function parameter.  A raised Python exception is
modelled by `Except.error`. -/

/-- The Python exceptions the embedded code can raise. -/
inductive PyErr where
  | indexError
deriving DecidableEq

/-- Top-level blocks appended to `json_output["content"]` by `_parse_body`.
`quoteB` is the `normal` paragraph with the fixed indent formatting of the
quotation branch; `listB` keeps the `bullet`/`number` discriminator (the
constant `level: 0` field is omitted); the `page_break` and `bibliography`
constructors are what lines 525 and 536-541 would append — with the current
group indices these lines are unreachable (see `dispatch`). -/
inductive Block where
  | normal (content : List Run)
  | quoteB (content : List Run)
  | heading (level : Nat) (content : List Run)
  | listB (bullet : Bool) (items : List (Str × Option Fmt))
  | tableB (data : List (List (List Run))) (label : Option Str)
      (caption : Option (List Run)) (column_spec : Option Str)
      (environment_type : Option Str)
  | page_break (command : Str)
  | bibliography (command : Str) (bib_files : List Str)
deriving DecidableEq

/-- Find the first occurrence of substring `t`; return the text before it and
the text after it (lazy `(.*?)` followed by a literal). -/
def findSub (t : Str) : Str → Option (Str × Str)
  | [] => none
  | c :: cs =>
    if pre t (c :: cs) then some ([], List.drop t.length (c :: cs))
    else (findSub t cs).map (fun p => (c :: p.1, p.2))

def dropToNewline (s : Str) : Str := s.dropWhile (fun c => c ≠ '\n')

/-- Model of `re.sub(r"(?<!\\)%.*", "", body)` (line 360): a `%` not preceded by a
backslash starts a comment that runs to (but not including) the newline.
The `prevc` argument records the character before the scan position in the
original string; the value passed after a removed comment is unobservable
because the resume character is a newline, never `%`. -/
def stripLineCommentsGo : Nat → Option Char → Str → Str
  | _, _, [] => []
  | 0, _, s => s
  | n + 1, prevc, c :: cs =>
    if c = '%' ∧ prevc ≠ some bsl then
      stripLineCommentsGo n (some '%') (dropToNewline cs)
    else c :: stripLineCommentsGo n (some c) cs

def stripLineComments (s : Str) : Str :=
  stripLineCommentsGo (s.length + 1) none s

def tcIgnoreLit : Str := lit "%TC:ignore"

def tcEndLit : Str := lit "%TC:endignore"

/-- Model of `re.sub(r"%TC:ignore.*?%TC:endignore", "", ..., flags=re.DOTALL)`
(line 361): remove each ignore marker through the first end marker after it;
an ignore marker with no end marker is left alone and scanning resumes at the
next character. -/
def stripTCGo : Nat → Str → Str
  | _, [] => []
  | 0, s => s
  | n + 1, c :: cs =>
    if pre tcIgnoreLit (c :: cs) then
      match findSub tcEndLit (List.drop tcIgnoreLit.length (c :: cs)) with
      | some (_, rest) => stripTCGo n rest
      | none => c :: stripTCGo n cs
    else c :: stripTCGo n cs

def stripTCIgnore (s : Str) : Str := stripTCGo (s.length + 1) s

/-- Index of the last newline of `w`, if any. -/
def lastNewlineIdx (w : Str) : Option Nat :=
  match List.findIdx? (fun c => c = '\n') w.reverse with
  | some j => some (w.length - 1 - j)
  | none => none

/-- After an initial newline, `\s*\n+` (with backtracking from the greedy
`\s*`) consumes through the last newline of the following whitespace run,
provided that run contains at least one newline. -/
def paraSepRest (cs : Str) : Option Str :=
  match lastNewlineIdx (cs.takeWhile isPySpace) with
  | some k => some (List.drop (k + 1) cs)
  | none => none

/-- Model of `re.split(r"\n\s*\n+", text)` (line 373): split paragraphs on blank-line
separators. -/
def paraSplitGo : Nat → Str → List Str
  | _, [] => [[]]
  | 0, s => [s]
  | n + 1, c :: cs =>
    if c = '\n' then
      match paraSepRest cs with
      | some rest => [] :: paraSplitGo n rest
      | none =>
        match paraSplitGo n cs with
        | [] => [[c]]
        | p :: ps => (c :: p) :: ps
    else
      match paraSplitGo n cs with
      | [] => [[c]]
      | p :: ps => (c :: p) :: ps

def paraSplit (s : Str) : List Str := paraSplitGo (s.length + 1) s

/-- The match data of the block pattern (lines 362-367): which alternative
matched, with its captured groups.  `secB` carries G1 (command), G2 (the
unused optional argument) and G3 (title); `envB` carries G4/G5; `pageB`
carries G6; `bibB` carries G7 and G8. -/
inductive BM where
  | secB (kind : Str) (optArg : Option Str) (title : Str)
  | envB (name : Str) (content : Str)
  | pageB (command : Str)
  | bibB (command : Str) (file : Option Str)

def secNames : List Str := [lit "section", lit "subsection", lit "subsubsection"]

def matchSecName : List Str → Str → Option (Str × Option Str × Str × Str)
  | [], _ => none
  | nm :: rest, s =>
    if pre nm s then
      match bracketThenBrace (List.drop nm.length s) with
      | some (opt, title, r) => some (nm, opt, title, r)
      | none => matchSecName rest s
    else matchSecName rest s

def envNames : List Str :=
  [lit "figure", lit "table", lit "itemize", lit "enumerate", lit "quotation",
   lit "verbatim", lit "longtable", lit "tabularx", lit "tabular",
   lit "subcaption", lit "subfigure"]

def endLit (name : Str) : Str := (lit "\\end\x7b") ++ name ++ [cbr]

/-- The environment alternative `\begin\{(...)\}(.*?)\end\{\4\}`: names are
tried in pattern order; the lazy content runs to the first matching
`\end{name}`; a name whose end marker is missing fails and the next
alternative is tried. -/
def matchEnvName : List Str → Str → Option (Str × Str × Str)
  | [], _ => none
  | nm :: rest, s =>
    if pre (nm ++ [cbr]) s then
      match findSub (endLit nm) (List.drop (nm.length + 1) s) with
      | some (content, r) => some (nm, content, r)
      | none => matchEnvName rest s
    else matchEnvName rest s

/-- Alternatives 3 and 4 of the block pattern, tried at a backslash after the
section and environment alternatives failed. -/
def blockAlt34 (cs : Str) : Option (BM × Str) :=
  if pre (lit "newpage") cs then some (BM.pageB (lit "newpage"), List.drop 7 cs)
  else if pre (lit "clearpage") cs then
    some (BM.pageB (lit "clearpage"), List.drop 9 cs)
  else if pre (lit "printbibliography") cs then
    some (BM.bibB (lit "printbibliography") none, List.drop 17 cs)
  else if pre (lit "bibliography\x7b") cs then
    match splitAtFirst cbr (List.drop 13 cs) with
    | some (f, r) =>
      some (BM.bibB ((lit "bibliography\x7b") ++ f ++ [cbr]) (some f), r)
    | none => none
  else none

/-- Try the block pattern at the current position, alternatives in pattern
order. -/
def blockMatchAt (s : Str) : Option (BM × Str) :=
  match s with
  | [] => none
  | c :: cs =>
    if c = bsl then
      match matchSecName secNames cs with
      | some (nm, opt, title, r) => some (BM.secB nm opt title, r)
      | none =>
        if pre (lit "begin\x7b") cs then
          match matchEnvName envNames (List.drop 6 cs) with
          | some (nm, content, r) => some (BM.envB nm content, r)
          | none => blockAlt34 cs
        else blockAlt34 cs
    else none

/-- Model of `block_pattern.search`: the earliest position with a match. -/
def findBlockMatch : Str → Option (Str × BM × Str)
  | [] => none
  | c :: cs =>
    match blockMatchAt (c :: cs) with
    | some (m, r) => some ([], m, r)
    | none => (findBlockMatch cs).map (fun t => (c :: t.1, t.2.1, t.2.2))

/-- Model of `re.search(r"\\includegraphics(?:\[(.*?)\])?\{(.*?)\}", ...)` of the
figure branch (line 389); only group 2 (the path) is used. -/
def findIncludegraphics : Str → Option Str
  | [] => none
  | c :: cs =>
    if pre (lit "\\includegraphics") (c :: cs) then
      match bracketThenBrace (List.drop 16 (c :: cs)) with
      | some (_, path, _) => some path
      | none => findIncludegraphics cs
    else findIncludegraphics cs

/-- Model of `re.search(r"\\cmd\{(.*?)\}", ...)`: first occurrence of `\cmd{...}`;
returns the whole matched text and the lazy inner group. -/
def searchCmdArg (cmd : Str) : Str → Option (Str × Str)
  | [] => none
  | c :: cs =>
    if pre (bsl :: (cmd ++ [obr])) (c :: cs) then
      match splitAtFirst cbr (List.drop (cmd.length + 2) (c :: cs)) with
      | some (inner, _) =>
        some ((bsl :: (cmd ++ [obr])) ++ inner ++ [cbr], inner)
      | none => searchCmdArg cmd cs
    else searchCmdArg cmd cs

/-! #### Itemize/enumerate handling (lines 391-411) -/

/-- Case-insensitive prefix (the item pattern carries `re.IGNORECASE`). -/
def ciPre : Str → Str → Bool
  | [], _ => true
  | _ :: _, [] => false
  | a :: as, b :: bs => (a.toLower == b.toLower) && ciPre as bs

def itemLit : Str := lit "\\item"

/-- The lookahead `(?=\\item|\\end\{env\}|\Z)` of the item pattern. -/
def itemStop (env : Str) (s : Str) : Bool :=
  ciPre itemLit s || ciPre (endLit env) s

/-- The lazy item content: everything up to the first lookahead position (or
the end of the string). -/
def takeUntilItemStop (env : Str) : Str → Str × Str
  | [] => ([], [])
  | c :: cs =>
    if itemStop env (c :: cs) then ([], c :: cs)
    else
      let p := takeUntilItemStop env cs
      (c :: p.1, p.2)

/-- The separator `(?:\s+|\[.*?\]\s*)` after `\item`: greedy whitespace, or a
lazy bracket group followed by greedy whitespace. -/
def itemArgSep (s : Str) : Option Str :=
  let w := s.takeWhile isPySpace
  if !w.isEmpty then some (List.drop w.length s)
  else
    match s with
    | [] => none
    | c :: cs =>
      if c = '[' then
        (splitAtFirst ']' cs).map (fun p => p.2.dropWhile isPySpace)
      else none

/-- Model of `re.finditer` over the item pattern: collect the content group of each
match, scanning left to right and resuming after each match. -/
def findItems (env : Str) : Nat → Str → List Str
  | _, [] => []
  | 0, _ => []
  | n + 1, c :: cs =>
    if ciPre itemLit (c :: cs) then
      match itemArgSep (List.drop 5 (c :: cs)) with
      | some rest =>
        let p := takeUntilItemStop env rest
        p.1 :: findItems env n p.2
      | none => findItems env n cs
    else findItems env n cs

/-- The `formatting` value as stored on an item: only a nonempty dict is truthy. -/
def fmtOpt (f : Fmt) : Option Fmt := if f = fmtNone then none else some f

/-- State of the per-item run loop (lines 398-405): collected text parts, the
formatting of the first run, the enumerate index, and the
consistent-formatting flag. -/
structure ItemAcc where
  parts : List Str
  firstF : Option Fmt
  idx : Nat
  consistent : Bool
deriving DecidableEq

def itemStep (st : ItemAcc) (r : Run) : ItemAcc :=
  match r with
  | Run.text t f =>
    { parts := st.parts ++ [t]
      firstF := if st.idx = 0 then fmtOpt f else st.firstF
      idx := st.idx + 1
      consistent :=
        if st.idx = 0 then st.consistent
        else if fmtOpt f ≠ st.firstF then false else st.consistent }
  | Run.citation d _ _ =>
    { parts := st.parts ++ [d], firstF := st.firstF, idx := st.idx + 1,
      consistent := false }
  | Run.image _ =>
    { parts := st.parts, firstF := st.firstF, idx := st.idx + 1,
      consistent := st.consistent }

/-- One `\item`: parse its content inline, join the text parts, and promote
the first formatting to the item when all text runs share it (lines 395-410);
items whose joined stripped text is empty are dropped. -/
def listItemOf (macros : MacroTable) (colors : List (Str × Str)) (raw : Str) :
    Option (Str × Option Fmt) :=
  let s := pyStrip raw
  if s.isEmpty then none
  else
    let runs := parse_inline_text_to_content_items macros colors s
    let st := runs.foldl itemStep ⟨[], none, 0, true⟩
    let finalText := pyStrip st.parts.flatten
    if finalText.isEmpty then none
    else
      some (finalText,
        if st.consistent ∧ st.firstF ≠ none then st.firstF else none)

/-! #### Table handling (lines 420-502) -/

def splitOnChar (ch : Char) : Str → List Str
  | [] => [[]]
  | c :: cs =>
    if c = ch then [] :: splitOnChar ch cs
    else
      match splitOnChar ch cs with
      | [] => [[c]]
      | p :: ps => (c :: p) :: ps

/-- Python `s.split(t)` for a nonempty separator `t`. -/
def splitOnSubGo (t : Str) : Nat → Str → List Str
  | _, [] => [[]]
  | 0, s => [s]
  | n + 1, c :: cs =>
    if pre t (c :: cs) && !t.isEmpty then
      [] :: splitOnSubGo t n (List.drop t.length (c :: cs))
    else
      match splitOnSubGo t n cs with
      | [] => [[c]]
      | p :: ps => (c :: p) :: ps

def splitOnSub (t s : Str) : List Str := splitOnSubGo t (s.length + 1) s

/-- Model of `re.match(r"\\cline\s*\{.*?\}(.*)", row)`: the lazy group cannot cross a
newline (no DOTALL on this pattern) and the trailing `(.*)` stops at the
first newline. -/
def clineRest (s : Str) : Option Str :=
  match (List.drop 6 s).dropWhile isPySpace with
  | [] => none
  | c :: cs =>
    if c = obr then
      match splitAtFirst cbr cs with
      | some (inner, rest) =>
        if inner.contains '\n' then none
        else some (rest.takeWhile (fun ch => ch ≠ '\n'))
      | none => none
    else none

/-- The `while row_data_string.startswith(("\\hline", "\\cline"))` loop
(lines 454-458): strip leading rules; a `\cline` that the regex cannot parse
empties the row. -/
def stripRowMarkers : Nat → Str → Str
  | 0, s => s
  | n + 1, s =>
    if pre (lit "\\hline") s then stripRowMarkers n (pyStrip (List.drop 6 s))
    else if pre (lit "\\cline") s then
      match clineRest s with
      | some r => stripRowMarkers n (pyStrip r)
      | none => []
    else s

/-- The row-keeping test of lines 462 and 498: some cell contains an item
whose `text` value strips to something nonempty (citation and image items
contribute nothing, since `item.get("text", "")` is empty for them). -/
def cellTruthy (cell : List Run) : Bool :=
  cell.any (fun item =>
    match item with
    | Run.text t _ => !(pyStrip t).isEmpty
    | _ => false)

/-- One table row: strip, remove leading rules, drop if empty, split into
cells on `&`, inline-parse each cell, and drop the row when no cell is
truthy. -/
def rowOf (macros : MacroTable) (colors : List (Str × Str)) (rowRaw : Str) :
    Option (List (List Run)) :=
  let row := stripRowMarkers (rowRaw.length + 1) (pyStrip rowRaw)
  if row.isEmpty then none
  else
    let cells := (splitOnChar '&' row).map
      (fun cell => parse_inline_text_to_content_items macros colors (pyStrip cell))
    if cells.any cellTruthy then some cells else none

/-- Rows of a tabular body: split on `\\` and process each row. -/
def tableRows (macros : MacroTable) (colors : List (Str × Str)) (tdata : Str) :
    List (List (List Run)) :=
  (splitOnSub (lit "\\\\") (pyStrip tdata)).filterMap (rowOf macros colors)

/-- The tabular-family names of the inner-tabular search (line 431), in the
effective try order of the alternation `tabularx?|tabular\*|supertabular|xtabular|tabular`. -/
def tabNames : List Str :=
  [lit "tabularx", lit "tabular", lit "tabular*", lit "supertabular",
   lit "xtabular"]

/-- After `\begin{name}`: greedy `\s*`, then the optional verbatim colspec
`(\{[^}]*\})?`, then the lazy content up to the first `\end{name}`.  When the
colspec candidate matches but no end marker follows it, the optional group is
dropped and the content restarts right after the whitespace.  (The fallback
searches of source lines 432-435 are subsumed: the first pattern already
covers a plain `tabular` with or without a colspec.) -/
def innerTabAt : List Str → Str → Option (Option Str × Str)
  | [], _ => none
  | nm :: rest, s =>
    if pre (nm ++ [cbr]) s then
      let r1 := (List.drop (nm.length + 1) s).dropWhile isPySpace
      let attemptA :=
        match braceLazy r1 with
        | some (inner, r2) =>
          match findSub (endLit nm) r2 with
          | some (content, _) => some (some ((obr :: inner) ++ [cbr]), content)
          | none => none
        | none => none
      match attemptA with
      | some res => some res
      | none =>
        match findSub (endLit nm) r1 with
        | some (content, _) => some (none, content)
        | none => innerTabAt rest s
    else innerTabAt rest s

def findInnerTabular : Str → Option (Option Str × Str)
  | [] => none
  | c :: cs =>
    if pre (lit "\\begin\x7b") (c :: cs) then
      match innerTabAt tabNames (List.drop 7 (c :: cs)) with
      | some res => some res
      | none => findInnerTabular cs
    else findInnerTabular cs

/-- Python truthiness of the caption value (None or a run list). -/
def captionTruthy : Option (List Run) → Bool
  | some l => !l.isEmpty
  | none => false

/-- The `table` float branch (lines 420-466): caption and label searched in
the whole float; the inner tabular provides the colspec and the rows; the
block is appended only when it has data or a (nonempty) caption. -/
def handleTableFloat (macros : MacroTable) (colors : List (Str × Str))
    (content : Str) : Option Block :=
  let caption := (searchCmdArg (lit "caption") content).map
    (fun p => parse_inline_text_to_content_items macros colors (pyStrip p.2))
  let label := (searchCmdArg (lit "label") content).map (fun p => pyStrip p.2)
  let inner := findInnerTabular content
  let colspec :=
    match inner with
    | some (some cspec, _) => some (pyStrip cspec)
    | _ => none
  let data :=
    match inner with
    | some (_, tdata) => tableRows macros colors tdata
    | none => []
  if !data.isEmpty || captionTruthy caption then
    some (Block.tableB data label caption colspec none)
  else none

/-- Model of `re.match(r"\s*(\{[^}]*\})", content)` of the direct-table branch
(line 472). -/
def matchLeadColspec (s : Str) : Option (Str × Str) :=
  match braceLazy (List.drop (s.takeWhile isPySpace).length s) with
  | some (inner, rest) => some ((obr :: inner) ++ [cbr], rest)
  | none => none

/-- The `longtable`/`tabularx`/`tabular` branch (lines 468-502): leading
colspec; for `longtable` only, caption and label are extracted and their
matched text removed (Python `str.replace`, all occurrences); then the
rows. -/
def handleDirectTable (macros : MacroTable) (colors : List (Str × Str))
    (envName content : Str) : Option Block :=
  let p0 := matchLeadColspec content
  let colspec := p0.map (fun q => pyStrip q.1)
  let c0 :=
    match p0 with
    | some q => q.2
    | none => content
  let capPair :=
    if envName = lit "longtable" then searchCmdArg (lit "caption") c0 else none
  let caption := capPair.map
    (fun p => parse_inline_text_to_content_items macros colors (pyStrip p.2))
  let c1 :=
    match capPair with
    | some p => replaceAll p.1 [] c0
    | none => c0
  let labPair :=
    if envName = lit "longtable" then searchCmdArg (lit "label") c1 else none
  let label := labPair.map (fun p => pyStrip p.2)
  let c2 :=
    match labPair with
    | some p => replaceAll p.1 [] c1
    | none => c1
  let data := tableRows macros colors c2
  if !data.isEmpty || captionTruthy caption then
    some (Block.tableB data label caption colspec (some envName))
  else none

/-- The environment dispatch of lines 386-519, in source `elif` order.  The
duplicated `itemize`/`quotation`/`verbatim` branches of lines 505-518 are
dead code (the earlier branches match first); `subcaption`/`subfigure` have
no handler and contribute nothing. -/
def envBlocks (resolve : Str → Str) (macros : MacroTable)
    (colors : List (Str × Str)) (name content : Str) : List Block :=
  if name = lit "figure" then
    match findIncludegraphics content with
    | some p => [Block.normal [Run.image (resolve p)]]
    | none => []
  else if name = lit "itemize" ∨ name = lit "enumerate" then
    let items := (findItems name (content.length + 1) content).filterMap
      (listItemOf macros colors)
    if items.isEmpty then [] else [Block.listB (name = lit "itemize") items]
  else if name = lit "quotation" then
    let items := parse_inline_text_to_content_items macros colors (pyStrip content)
    if items.isEmpty then [] else [Block.quoteB items]
  else if name = lit "verbatim" then
    [Block.normal [Run.text (pyStrip content)
      ⟨false, false, false, some (lit "Courier New"), none⟩]]
  else if name = lit "table" then
    match handleTableFloat macros colors content with
    | some b => [b]
    | none => []
  else if name = lit "longtable" ∨ name = lit "tabularx" ∨ name = lit "tabular" then
    match handleDirectTable macros colors name content with
    | some b => [b]
    | none => []
  else []

/-- Mapping `{"section": 1, "subsection": 2, "subsubsection": 3}.get(kind, 1)`. -/
def secLevel (kind : Str) : Nat :=
  if kind = lit "section" then 1
  else if kind = lit "subsection" then 2
  else if kind = lit "subsubsection" then 3
  else 1

/-- The branch dispatch of lines 381-541.  The page-break branch (line 524)
reads `match.group(10)` and the bibliography branch (line 527) evaluates
`match.group(11)` in its `elif` condition; the compiled block pattern has
exactly 8 capture groups, so Python re raises `IndexError: no such group` in
both branches and nothing is appended. -/
def dispatch (resolve : Str → Str) (macros : MacroTable)
    (colors : List (Str × Str)) : BM → Except PyErr (List Block)
  | BM.secB kind _ title =>
    let items := parse_inline_text_to_content_items macros colors (pyStrip title)
    Except.ok (if items.isEmpty then [] else [Block.heading (secLevel kind) items])
  | BM.envB name content =>
    Except.ok (envBlocks resolve macros colors name content)
  | BM.pageB _ => Except.error PyErr.indexError
  | BM.bibB _ _ => Except.error PyErr.indexError

/-- Text before a block match: strip, split into paragraphs, inline-parse
each, and append a `normal` block per nonempty paragraph (lines 371-378). -/
def beforeBlocks (macros : MacroTable) (colors : List (Str × Str)) (s : Str) :
    List Block :=
  if (pyStrip s).isEmpty then []
  else
    (paraSplit (pyStrip s)).filterMap (fun para =>
      let p2 := pyStrip para
      if p2.isEmpty then none
      else
        let items := parse_inline_text_to_content_items macros colors p2
        if items.isEmpty then none else some (Block.normal items))

/-- The `while current_pos < len(...)` loop of lines 369-541. -/
def parseLoop (resolve : Str → Str) (macros : MacroTable)
    (colors : List (Str × Str)) : Nat → Str → Except PyErr (List Block)
  | 0, _ => Except.ok []
  | n + 1, s =>
    match findBlockMatch s with
    | none => Except.ok (beforeBlocks macros colors s)
    | some (before, m, rest) =>
      match dispatch resolve macros colors m with
      | Except.error e => Except.error e
      | Except.ok bs2 =>
        match parseLoop resolve macros colors n rest with
        | Except.error e => Except.error e
        | Except.ok bs3 =>
          Except.ok (beforeBlocks macros colors before ++ bs2 ++ bs3)

/-- Final schema-compliance pass (lines 544-549): paragraph-like blocks get a
placeholder empty text run when their content list is empty. -/
def normBlock : Block → Block
  | Block.normal [] => Block.normal [Run.text [] fmtNone]
  | Block.quoteB [] => Block.quoteB [Run.text [] fmtNone]
  | Block.heading l [] => Block.heading l [Run.text [] fmtNone]
  | b => b

/-- Source: `latex2json.py`, `_parse_body` (lines 359-549). -/
def parse_body (resolve : Str → Str) (macros : MacroTable)
    (colors : List (Str × Str)) (body : Str) : Except PyErr (List Block) :=
  let cleaned := stripTCIgnore (stripLineComments body)
  (parseLoop resolve macros colors (cleaned.length + 1) cleaned).map
    (List.map normBlock)

instance {ε α : Type} [DecidableEq ε] [DecidableEq α] :
    DecidableEq (Except ε α) := fun a b =>
  match a, b with
  | Except.ok x, Except.ok y =>
    if h : x = y then isTrue (by rw [h]) else isFalse (by simp [h])
  | Except.error e, Except.error f =>
    if h : e = f then isTrue (by rw [h]) else isFalse (by simp [h])
  | Except.ok _, Except.error _ => isFalse (by simp)
  | Except.error _, Except.ok _ => isFalse (by simp)

/-! ### Claims C2 and C7 -/

/-- C2: the claim is right and the code is wrong.  A body containing
`\newpage`, `\clearpage`, `\printbibliography` or `\bibliography{...}` makes
`_parse_body` raise `IndexError` (the branches read capture groups 10 and 11
of a pattern that has only 8 groups) instead of producing a PageBreak or
BibliographyMarker block; the exception propagates out of `convert`, so an
unreadable input file is not the only fatal failure. -/
theorem C2_parse_body_raises :
    parse_body id [] LATEX_COLOR_TO_HEX
        (lit "Intro text.\n\\newpage\nMore text.") =
      Except.error PyErr.indexError ∧
    parse_body id [] LATEX_COLOR_TO_HEX (lit "\\clearpage") =
      Except.error PyErr.indexError ∧
    parse_body id [] LATEX_COLOR_TO_HEX (lit "\\printbibliography") =
      Except.error PyErr.indexError ∧
    parse_body id [] LATEX_COLOR_TO_HEX (lit "\\bibliography\x7brefs\x7d") =
      Except.error PyErr.indexError := by
  refine ⟨by decide, by decide, by decide, by decide⟩

/-- A `table` float whose only row has two empty cells, without a caption. -/
def c7TableNoCaption : Str :=
  lit "\\begin\x7btable\x7d\\begin\x7btabular\x7d\x7bc\x7d & \\\\ & \\end\x7btabular\x7d\\end\x7btable\x7d"

/-- The same table with a `\caption{Cap}` before the tabular. -/
def c7TableWithCaption : Str :=
  lit "\\begin\x7btable\x7d\\caption\x7bCap\x7d\\begin\x7btabular\x7d\x7bc\x7d & \\\\ & \\end\x7btabular\x7d\\end\x7btable\x7d"

/-- Does the output content list contain a Table block with zero rows? -/
def containsZeroRowTable : List Block → Bool
  | [] => false
  | Block.tableB [] _ _ _ _ :: _ => true
  | _ :: rest => containsZeroRowTable rest

/-- C7 counterexample: a table environment whose every row is dropped and
which has no caption yields no Table block at all — the output content list
is empty, so no zero-row Table block is in it, contrary to the claim. -/
theorem C7_counterexample :
    (parse_body id [] LATEX_COLOR_TO_HEX c7TableNoCaption).map
        containsZeroRowTable ≠ Except.ok true := by
  decide

/-- C7 (amended): a table environment in which every row contains no
non-empty cell raises no error: all rows are dropped, and a Table block with
zero rows is appended only when the environment carries a (nonempty)
caption; with no caption, no block is appended at all. -/
theorem C7_empty_rows_dropped :
    parse_body id [] LATEX_COLOR_TO_HEX c7TableNoCaption = Except.ok [] ∧
    parse_body id [] LATEX_COLOR_TO_HEX c7TableWithCaption =
      Except.ok [Block.tableB [] none (some [Run.text (lit "Cap") fmtNone])
        (some (lit "\x7bc\x7d")) none] := by
  refine ⟨by decide, by decide⟩

end Tex2Docx
